import Mathlib

/-!
Verification of the image upload / gallery / deletion subsystem of
`src/controller/upload.rs` (freedit).

A shallow embedding: the fjall partition `"user_uploads"` is modelled as an
association list from keys to values, kept sorted strictly ascending in the
byte order of its encoded keys (the store iterates in key-byte order).  A key
is the pair `(owner uid, image id)`, physically encoded as the concatenation
of the two 4-byte big-endian words; values are the blob filenames (the stored
bytes are valid UTF-8, so `String` equality coincides with byte equality).
The blob directory is modelled as the list of file paths present.  External
collaborators (image codec, digest, filesystem failures) are oracles passed
as function parameters, which also makes their determinism explicit.
-/

namespace Freedit

/-- Modelled from the spec (§6 persisted layout): `u32_to_ivec` lives in
`db_utils`, which is not part of the provided sources; the spec mandates a
fixed-width big-endian encoding of a `u32`. -/
def u32_to_ivec (n : Nat) : List Nat :=
  [n / 2 ^ 24 % 256, n / 2 ^ 16 % 256, n / 2 ^ 8 % 256, n % 256]

/-- Modelled from the spec (§6 persisted layout): `u8_slice_to_u32` lives in
`db_utils`, not in the provided sources; it is the big-endian decoding
inverse to `u32_to_ivec`. -/
def u8_slice_to_u32 (bs : List Nat) : Nat :=
  bs.foldl (fun acc b => acc * 256 + b) 0

/-- Index keys: `(owner uid, image id)`, cf. `[u32_to_ivec(uid), u32_to_ivec(img_id)].concat()`. -/
abbrev Key := Nat × Nat

/-- The byte encoding of an index key (upload.rs line 164 / 281). -/
def keyBytes (k : Key) : List Nat :=
  u32_to_ivec k.1 ++ u32_to_ivec k.2

/-- Strict lexicographic order on byte strings: the iteration order of the
key-value store. -/
def bytesLt : List Nat → List Nat → Bool
  | [], [] => false
  | [], _ :: _ => true
  | _ :: _, [] => false
  | a :: as, b :: bs => a < b || (a == b && bytesLt as bs)

/-- The relevant variants of `image::ImageFormat`; everything the codec can
detect beyond the four formats accepted at upload.rs lines 259-265 is
collapsed into `Other`. -/
inductive ImageFormat
  | Png
  | Jpeg
  | WebP
  | Gif
  | Other
deriving DecidableEq, Repr

/-- The allow-list test `matches!(format, Png | Jpeg | WebP | Gif)`
(upload.rs lines 259-262). -/
def ImageFormat.supported : ImageFormat → Bool
  | .Png => true
  | .Jpeg => true
  | .WebP => true
  | .Gif => true
  | .Other => false

/-- `format.extensions_str().first()` of the `image` crate, for the formats
the code can reach after the allow-list check. -/
def extensionsStrFirst : ImageFormat → Option String
  | .Png => some "png"
  | .Jpeg => some "jpg"
  | .WebP => some "webp"
  | .Gif => some "gif"
  | .Other => none

/-- Modelled from the spec (§4.4, glossary): the `Role` enum is not in the
provided sources; the code only distinguishes `Role::Admin` (the elevated
role) from everything else. -/
inductive Role
  | Admin
  | Standard
deriving DecidableEq, Repr

/-- I/O errors from the blob store: `remove_file` reports `notFound` when
the path is absent; `other` stands for any other filesystem failure. -/
inductive IoErr
  | notFound
  | other
deriving DecidableEq, Repr

/-- Modelled from the spec (§7 taxonomy): `AppError` is not in the provided
sources; these are the variants the embedded handlers produce
(`io::Error` converts into the `Io` variant via `?`). -/
inductive AppError
  | NonLogin
  | Unauthorized
  | NotFound
  | Io (e : IoErr)
  | Custom (s : String)
deriving DecidableEq, Repr

/-- The persistent state touched by the embedded handlers: the
`"user_uploads"` partition (sorted by key bytes), the set of blob file paths
present under `CONFIG.upload_path`, the `"imgs_count"` counter, and the
notification log (target uid, actor uid, image id). -/
structure Store where
  index : List (Key × String)
  blobs : List String
  imgs_count : Nat
  nts : List (Nat × Nat × Nat)
deriving DecidableEq, Repr

/-- `tree.take(&k)`: remove the entry at key `k`, returning its previous
value (or `none`, leaving the partition untouched). -/
def dbTake (db : List (Key × String)) (k : Key) : Option String × List (Key × String) :=
  match db.find? (fun e => e.1 == k) with
  | some e => (some e.2, db.filter (fun e => !(e.1 == k)))
  | none => (none, db)

/-- Ordered insert into the partition, preserving the sort by key bytes
(a batch `insert` overwrites an existing key). -/
def dbInsert (db : List (Key × String)) (k : Key) (v : String) : List (Key × String) :=
  match db with
  | [] => [(k, v)]
  | e :: rest =>
    if bytesLt (keyBytes k) (keyBytes e.1) then (k, v) :: e :: rest
    else if e.1 == k then (k, v) :: rest
    else e :: dbInsert rest k v

/-- `format!("{}/{}", CONFIG.upload_path, img)` / `format!("{}/{filename}", &CONFIG.upload_path)`. -/
def blobPath (cfg : String) (img : String) : String :=
  cfg ++ "/" ++ img

/-- `fs::write` at a content-addressed path: creates the file if absent; the
bytes written at an existing path are identical, so the store is a set of
paths (the content is determined by the path). -/
def fsWrite (blobs : List String) (p : String) (_data : List Nat) : List String :=
  if p ∈ blobs then blobs else blobs ++ [p]

/-- `tokio::fs::remove_file`: fails with `notFound` when the path is absent;
`rmFail` is the environment oracle for any other filesystem failure. -/
def removeFile (rmFail : String → Bool) (blobs : List String) (p : String) :
    Except IoErr (List String) :=
  if p ∈ blobs then
    if rmFail p then .error .other
    else .ok (blobs.filter (fun q => !(q == p)))
  else .error .notFound

/-! ### `GET /image/delete/:uid/:img_id` — `image_delete` (upload.rs lines 151-196)

Authentication (cookie → `Claim`) is resolved by the external Auth Context;
the embedding starts from the resolved `(claim_uid, claim_role)`.  The DB
mutations performed before a failure persist, so the outcome carries both
the `Result` value and the state after the call. -/

deriving instance DecidableEq for Except

/-- The outcome of `image_delete`: the returned `Result` (the redirect is
collapsed to `Unit`) together with the persistent state after the call. -/
structure DeleteOutcome where
  result : Except AppError Unit
  store : Store
deriving DecidableEq, Repr

/-- `image_delete` (upload.rs lines 151-196): authorize, `take` the index
record, scan the whole partition for another record with the same value
(breaking at the first hit), delete the physical blob only when none was
found, then notify the owner when the actor is someone else. -/
def image_delete (rmFail : String → Bool) (cfg : String)
    (claim_uid : Nat) (claim_role : Role) (uid img_id : Nat) (st : Store) :
    DeleteOutcome :=
  if claim_uid ≠ uid ∧ claim_role ≠ Role.Admin then
    ⟨.error .Unauthorized, st⟩
  else
    match dbTake st.index (uid, img_id) with
    | (none, _) => ⟨.error .NotFound, st⟩
    | (some v1, index') =>
      let count : Nat := if index'.any (fun e => e.2 == v1) then 1 else 0
      let afterBlob : Except AppError (List String) :=
        if count = 0 then
          match removeFile rmFail st.blobs (blobPath cfg v1) with
          | .ok bs => .ok bs
          | .error e => .error (.Io e)
        else .ok st.blobs
      match afterBlob with
      | .error e => ⟨.error e, { st with index := index' }⟩
      | .ok bs =>
        let st' := { st with index := index', blobs := bs }
        if uid ≠ claim_uid then
          ⟨.ok (), { st' with nts := st'.nts ++ [(uid, claim_uid, img_id)] }⟩
        else
          ⟨.ok (), st'⟩

/-! ### `GET /gallery/:uid` — `gallery` (upload.rs lines 95-148) -/

/-- Key decoding inside the gallery loop (upload.rs lines 127-130):
`u8_slice_to_u32(&k[4..])` paired with the UTF-8 value. -/
def decodeEntry (e : Key × String) : Nat × String :=
  (u8_slice_to_u32 ((keyBytes e.1).drop 4), e.2)

/-- `ks.inner().prefix(u32_to_ivec(uid))`: the entries whose key bytes start
with the owner's 4 encoded bytes, in store order. -/
def prefixEntries (db : List (Key × String)) (uid : Nat) : List (Key × String) :=
  db.filter (fun e => (keyBytes e.1).take 4 == u32_to_ivec uid)

/-- The `for (idx, i) in iter.enumerate()` loop of `gallery` (upload.rs
lines 122-135): skip while `idx < anchor`, push the decoded pair, break once
`imgs.len() >= n`. -/
def galleryLoop (anchor n : Nat) : Nat → List (Nat × String) → List (Key × String) →
    List (Nat × String)
  | _, imgs, [] => imgs
  | idx, imgs, e :: rest =>
    if idx < anchor then galleryLoop anchor n (idx + 1) imgs rest
    else
      let imgs' := imgs ++ [decodeEntry e]
      if n ≤ imgs'.length then imgs' else galleryLoop anchor n (idx + 1) imgs' rest

/-- `gallery` (upload.rs lines 95-148): authorize, default the query
parameters (`anchor = 0`, `is_desc = true`, `n = 12`), iterate the owner's
prefix forward or reversed, and return the collected page (the template
around it is dropped). -/
def gallery (claim_uid : Nat) (claim_role : Role) (uid : Nat)
    (anchor? : Option Nat) (is_desc? : Option Bool) (st : Store) :
    Except AppError (List (Nat × String)) :=
  if claim_uid ≠ uid ∧ claim_role ≠ Role.Admin then .error .Unauthorized
  else
    let anchor := anchor?.getD 0
    let is_desc := is_desc?.getD true
    let n := 12
    let entries := prefixEntries st.index uid
    let iter := if is_desc then entries.reverse else entries
    .ok (galleryLoop anchor n 0 [] iter)

/-! ### `POST /upload` — `upload_post` (upload.rs lines 227-302)

External collaborators appear as oracles: `gf` is `image::guess_format`
(`none` = undetectable), `dg data` is `HEXLOWER.encode(sha1(data))`, and
`wf path` tells whether `fs::write` at `path` fails.  All three depend only
on their arguments, which is exactly the determinism the code relies on. -/

/-- One multipart field; `bytes = none` models a failing `field.bytes()`. -/
structure Field where
  bytes : Option (List Nat)
deriving DecidableEq, Repr

/-- Modelled from the spec (§2 Sequence Counter, §9): `incr_id` is not in the
provided sources; it atomically increments the named counter and returns the
new value. -/
def incr_id (st : Store) : Nat × Store :=
  (st.imgs_count + 1, { st with imgs_count := st.imgs_count + 1 })

/-- The body of the `while let Some(field)` loop of `upload_post` (upload.rs
lines 240-288), acting on `(store, staged batch, accepted list)`: every
failing check `continue`s with the accumulator unchanged; an accepted item
writes its blob, draws the next id, stages the index insert and appends its
filename. -/
def uploadStep (gf : List Nat → Option ImageFormat) (dg : List Nat → String)
    (wf : String → Bool) (cfg : String) (uid : Nat)
    (acc : Store × List (Key × String) × List String) (field : Field) :
    Store × List (Key × String) × List String :=
  let (st, batch, imgs) := acc
  match field.bytes with
  | none => acc
  | some data =>
    match gf data with
    | none => acc
    | some format =>
      if !format.supported then acc
      else
        match extensionsStrFirst format with
        | none => acc
        | some extension =>
          let filename := dg data ++ "." ++ extension
          let path := blobPath cfg filename
          if wf path then acc
          else
            let st := { st with blobs := fsWrite st.blobs path data }
            let (img_id, st) := incr_id st
            (st, batch ++ [((uid, img_id), filename)], imgs ++ [filename])

/-- `upload_post` (upload.rs lines 227-302): run the field loop from an
empty batch and accepted list, then `batch.commit()` applies every staged
insert to the partition.  Returns the state after the commit and the
accepted filenames handed to the template. -/
def upload_post (gf : List Nat → Option ImageFormat) (dg : List Nat → String)
    (wf : String → Bool) (cfg : String) (uid : Nat)
    (fields : List Field) (st : Store) : Store × List String :=
  let (st', batch, imgs) := fields.foldl (uploadStep gf dg wf cfg uid) (st, [], [])
  ({ st' with index := batch.foldl (fun db e => dbInsert db e.1 e.2) st'.index }, imgs)

/-- The per-item acceptance decision of the upload loop, as a function of the
field alone: `some filename` exactly when none of the `continue`/skip branches
of upload.rs lines 245-279 fire, `none` otherwise.  Restates the checks of
`uploadStep` without the threaded state (possible because every check depends
only on the field). -/
def fieldOutcome (gf : List Nat → Option ImageFormat) (dg : List Nat → String)
    (wf : String → Bool) (cfg : String) (field : Field) : Option String :=
  match field.bytes with
  | none => none
  | some data =>
    match gf data with
    | none => none
    | some format =>
      if !format.supported then none
      else
        match extensionsStrFirst format with
        | none => none
        | some extension =>
          let filename := dg data ++ "." ++ extension
          if wf (blobPath cfg filename) then none else some filename

/-- The batch staged for the accepted filenames when the counter starts at
`c`: ids `c+1, c+2, …` in order. -/
def batchFor (uid c : Nat) : List String → List (Key × String)
  | [] => []
  | nm :: rest => ((uid, c + 1), nm) :: batchFor uid (c + 1) rest

/-- The blob paths present after writing the accepted filenames in order. -/
def writeAll (cfg : String) (blobs : List String) : List String → List String
  | [] => blobs
  | nm :: rest => writeAll cfg (fsWrite blobs (blobPath cfg nm) []) rest

/-! Concrete fixtures used to instantiate the theorems below. -/

/-- A codec oracle: `[9]` detects as an unsupported format, `[]` is
undetectable, everything else detects as PNG. -/
def gfW : List Nat → Option ImageFormat := fun data =>
  match data with
  | [9] => some ImageFormat.Other
  | [] => none
  | _ => some ImageFormat.Png

/-- A digest oracle assigning short distinct hex-like digests. -/
def dgW : List Nat → String := fun data =>
  "h" ++ (match data with | [1] => "1" | [2] => "2" | [3] => "3" | [4] => "4" | _ => "x")

/-- A filesystem where every write succeeds. -/
def wfW : String → Bool := fun _ => false

/-- A filesystem where `remove_file` only fails on a missing path. -/
def rmW : String → Bool := fun _ => false

/-- The empty store. -/
def stEmpty : Store := ⟨[], [], 0, []⟩

/-- A store where owner 1 holds records 1 and 2 sharing one blob and
record 3 with its own blob. -/
def stW : Store :=
  ⟨[((1, 1), "a.png"), ((1, 2), "a.png"), ((1, 3), "b.png")],
   ["img/a.png", "img/b.png"], 3, []⟩

/-- A store where owner 7 holds 24 records. -/
def st24 : Store :=
  ⟨(List.range 24).map (fun i => ((7, i + 1), "x.png")), ["img/x.png"], 24, []⟩

/-- The five-item batch of the spec's example: item 3 has an unsupported
format. -/
def fieldsW : List Field :=
  [⟨some [1]⟩, ⟨some [2]⟩, ⟨some [9]⟩, ⟨some [3]⟩, ⟨some [4]⟩]

end Freedit

namespace Freedit

/-- Round trip of the sequence-id encoding: decoding the 4 big-endian bytes
recovers the word. -/
theorem u8_slice_to_u32_u32_to_ivec (n : Nat) (h : n < 2 ^ 32) :
    u8_slice_to_u32 (u32_to_ivec n) = n := by
  simp only [u8_slice_to_u32, u32_to_ivec, List.foldl]
  omega

theorem u32_to_ivec_length (n : Nat) : (u32_to_ivec n).length = 4 := rfl

theorem u32_to_ivec_inj {m n : Nat} (hm : m < 2 ^ 32) (hn : n < 2 ^ 32) :
    u32_to_ivec m = u32_to_ivec n ↔ m = n := by
  constructor
  · intro h
    have := congrArg u8_slice_to_u32 h
    rwa [u8_slice_to_u32_u32_to_ivec m hm, u8_slice_to_u32_u32_to_ivec n hn] at this
  · intro h; rw [h]

theorem bytesLt_four_iff {a0 a1 a2 a3 b0 b1 b2 b3 : Nat} (h1 : a1 < 256) (h2 : a2 < 256)
    (h3 : a3 < 256) (g1 : b1 < 256) (g2 : b2 < 256) (g3 : b3 < 256) :
    bytesLt [a0, a1, a2, a3] [b0, b1, b2, b3] = true ↔
      a0 * 2 ^ 24 + a1 * 2 ^ 16 + a2 * 2 ^ 8 + a3 <
        b0 * 2 ^ 24 + b1 * 2 ^ 16 + b2 * 2 ^ 8 + b3 := by
  simp only [bytesLt, Bool.or_eq_true, Bool.and_eq_true, beq_iff_eq, decide_eq_true_eq,
    Bool.and_false, Bool.or_false]
  constructor
  · intro h
    omega
  · intro h
    omega

/-- Byte-lexicographic comparison of two encoded words agrees with the
numeric order: the reason per-owner range scans come out in id order. -/
theorem bytesLt_u32_iff {m n : Nat} (hm : m < 2 ^ 32) (hn : n < 2 ^ 32) :
    bytesLt (u32_to_ivec m) (u32_to_ivec n) = true ↔ m < n := by
  have recm : m / 2 ^ 24 % 256 * 2 ^ 24 + m / 2 ^ 16 % 256 * 2 ^ 16 + m / 2 ^ 8 % 256 * 2 ^ 8 +
      m % 256 = m := by omega
  have recn : n / 2 ^ 24 % 256 * 2 ^ 24 + n / 2 ^ 16 % 256 * 2 ^ 16 + n / 2 ^ 8 % 256 * 2 ^ 8 +
      n % 256 = n := by omega
  unfold u32_to_ivec
  rw [bytesLt_four_iff (Nat.mod_lt _ (by norm_num)) (Nat.mod_lt _ (by norm_num))
    (Nat.mod_lt _ (by norm_num)) (Nat.mod_lt _ (by norm_num)) (Nat.mod_lt _ (by norm_num))
    (Nat.mod_lt _ (by norm_num)), recm, recn]

theorem bytesLt_append_iff {xs xs' ys ys' : List Nat} (h : xs.length = xs'.length) :
    bytesLt (xs ++ ys) (xs' ++ ys') = true ↔
      bytesLt xs xs' = true ∨ (xs = xs' ∧ bytesLt ys ys' = true) := by
  induction xs generalizing xs' with
  | nil =>
    cases xs' with
    | nil => simp [bytesLt]
    | cons b bs => simp at h
  | cons a as ih =>
    cases xs' with
    | nil => simp at h
    | cons b bs =>
      simp only [List.length_cons, Nat.add_right_cancel_iff] at h
      simp only [List.cons_append, bytesLt, List.append_eq, Bool.or_eq_true, Bool.and_eq_true,
        beq_iff_eq, decide_eq_true_eq, ih h, List.cons.injEq]
      tauto

/-- The store's key-byte order on encoded `(uid, img_id)` keys is the
lexicographic numeric order on the pairs. -/
theorem keyBytes_lt_iff {k1 k2 : Key} (h11 : k1.1 < 2 ^ 32) (h12 : k1.2 < 2 ^ 32)
    (h21 : k2.1 < 2 ^ 32) (h22 : k2.2 < 2 ^ 32) :
    bytesLt (keyBytes k1) (keyBytes k2) = true ↔
      k1.1 < k2.1 ∨ (k1.1 = k2.1 ∧ k1.2 < k2.2) := by
  unfold keyBytes
  rw [bytesLt_append_iff (by rw [u32_to_ivec_length, u32_to_ivec_length]),
    bytesLt_u32_iff h11 h21, bytesLt_u32_iff h12 h22, u32_to_ivec_inj h11 h21]

theorem keyBytes_take_four (k : Key) : (keyBytes k).take 4 = u32_to_ivec k.1 := by
  unfold keyBytes
  rw [← u32_to_ivec_length k.1, List.take_left]

theorem keyBytes_drop_four (k : Key) : (keyBytes k).drop 4 = u32_to_ivec k.2 := by
  unfold keyBytes
  rw [← u32_to_ivec_length k.1, List.drop_left]

theorem decodeEntry_eq {u s : Nat} (v : String) (hs : s < 2 ^ 32) :
    decodeEntry ((u, s), v) = (s, v) := by
  unfold decodeEntry
  rw [keyBytes_drop_four, u8_slice_to_u32_u32_to_ivec _ hs]

/-- Prefix iteration over the encoded keys selects exactly the owner's
entries. -/
theorem prefixEntries_eq_filter (db : List (Key × String)) (uid : Nat) (hu : uid < 2 ^ 32)
    (hb : ∀ e ∈ db, e.1.1 < 2 ^ 32) :
    prefixEntries db uid = db.filter (fun e => e.1.1 == uid) := by
  unfold prefixEntries
  apply List.filter_congr
  intro e he
  rw [keyBytes_take_four, Bool.eq_iff_iff]
  simp only [beq_iff_eq]
  exact u32_to_ivec_inj (hb e he) hu

theorem mem_prefixEntries {db : List (Key × String)} {uid : Nat} {e : Key × String}
    (hu : uid < 2 ^ 32) (hb : ∀ e ∈ db, e.1.1 < 2 ^ 32) (he : e ∈ prefixEntries db uid) :
    e ∈ db ∧ e.1.1 = uid := by
  rw [prefixEntries_eq_filter db uid hu hb] at he
  have := List.mem_filter.mp he
  exact ⟨this.1, by simpa using this.2⟩

/-- Within one owner's prefix the store order is strictly increasing in the
decoded sequence id. -/
theorem prefixEntries_pairwise {db : List (Key × String)} {uid : Nat} (hu : uid < 2 ^ 32)
    (hb : ∀ e ∈ db, e.1.1 < 2 ^ 32 ∧ e.1.2 < 2 ^ 32)
    (hs : db.Pairwise (fun a b => bytesLt (keyBytes a.1) (keyBytes b.1) = true)) :
    (prefixEntries db uid).Pairwise (fun a b => a.1.2 < b.1.2) := by
  have hsub : (prefixEntries db uid).Sublist db := List.filter_sublist _
  refine List.Pairwise.imp_of_mem ?_ (hs.sublist hsub)
  intro a b ha hb' hlt
  have hau := mem_prefixEntries hu (fun e he => (hb e he).1) ha
  have hbu := mem_prefixEntries hu (fun e he => (hb e he).1) hb'
  have hba := hb a hau.1
  have hbb := hb b hbu.1
  rw [keyBytes_lt_iff hba.1 hba.2 hbb.1 hbb.2] at hlt
  rcases hlt with h | ⟨_, h⟩
  · rw [hau.2, hbu.2] at h
    exact absurd h (lt_irrefl uid)
  · exact h

/-- Closed form of the gallery loop: starting at index `idx` with `imgs`
already collected, it skips `anchor - idx` entries, then decodes up to
`n - imgs.length` of them. -/
theorem galleryLoop_eq {n : Nat} (anchor : Nat) (l : List (Key × String)) :
    ∀ (idx : Nat) (imgs : List (Nat × String)), imgs.length < n →
      galleryLoop anchor n idx imgs l =
        imgs ++ ((l.drop (anchor - idx)).take (n - imgs.length)).map decodeEntry := by
  induction l with
  | nil =>
    intro idx imgs _
    simp [galleryLoop]
  | cons e rest ih =>
    intro idx imgs h
    by_cases hidx : idx < anchor
    · have hdrop : anchor - idx = (anchor - (idx + 1)) + 1 := by omega
      rw [galleryLoop, if_pos hidx, ih (idx + 1) imgs h, hdrop, List.drop_succ_cons]
    · have hdrop : anchor - idx = 0 := by omega
      by_cases hfull : n ≤ imgs.length + 1
      · have htake : n - imgs.length = 1 := by omega
        rw [galleryLoop, if_neg hidx, hdrop, htake]
        simp
        intro h'
        exact absurd h' (by omega)
      · have htake : n - imgs.length = (n - (imgs.length + 1)) + 1 := by omega
        rw [galleryLoop, if_neg hidx]
        have hlen : (imgs ++ [decodeEntry e]).length < n := by
          simp only [List.length_append, List.length_cons, List.length_nil]
          omega
        rw [if_neg (by simp only [List.length_append, List.length_cons, List.length_nil]; omega),
          ih (idx + 1) (imgs ++ [decodeEntry e]) hlen, hdrop, htake, List.drop_zero,
          List.take_succ_cons]
        have : anchor - (idx + 1) = 0 := by omega
        rw [this, List.drop_zero]
        simp only [List.length_append, List.length_cons, List.length_nil, List.map_cons,
          List.append_assoc, List.cons_append, List.nil_append]

/-- `gallery` under a passing authorization check returns the decoded page:
drop the first `anchor`, take 12, in the requested direction. -/
theorem gallery_eq_page (claim_uid : Nat) (claim_role : Role) (uid : Nat)
    (anchor? : Option Nat) (is_desc? : Option Bool) (st : Store)
    (hauth : claim_uid = uid ∨ claim_role = Role.Admin) :
    gallery claim_uid claim_role uid anchor? is_desc? st =
      .ok ((((if is_desc?.getD true then (prefixEntries st.index uid).reverse
              else prefixEntries st.index uid).drop (anchor?.getD 0)).take 12).map
            decodeEntry) := by
  unfold gallery
  rw [if_neg (by tauto)]
  show Except.ok (galleryLoop (anchor?.getD 0) 12 0 []
      (if (is_desc?.getD true) = true then (prefixEntries st.index uid).reverse
       else prefixEntries st.index uid)) = _
  rw [galleryLoop_eq (anchor?.getD 0) _ 0 [] (by norm_num)]
  simp

theorem dbTake_some_snd {db : List (Key × String)} {k : Key} {v1 : String}
    {index' : List (Key × String)} (h : dbTake db k = (some v1, index')) :
    index' = db.filter (fun e => !(e.1 == k)) := by
  unfold dbTake at h
  cases hf : db.find? (fun e => e.1 == k) with
  | none => rw [hf] at h; exact absurd h (by simp)
  | some e => rw [hf] at h; cases h; rfl

theorem dbTake_some_key_not_mem {db : List (Key × String)} {k : Key} {v1 : String}
    {index' : List (Key × String)} (h : dbTake db k = (some v1, index')) :
    ∀ e ∈ index', e.1 ≠ k := by
  intro e he
  rw [dbTake_some_snd h] at he
  simpa using (List.mem_filter.mp he).2

theorem mem_dbInsert_iff {db : List (Key × String)} {k : Key} {v : String}
    (hfresh : ∀ e ∈ db, e.1 ≠ k) (x : Key × String) :
    x ∈ dbInsert db k v ↔ x = (k, v) ∨ x ∈ db := by
  induction db with
  | nil => simp [dbInsert]
  | cons e rest ih =>
    rw [dbInsert]
    by_cases h1 : bytesLt (keyBytes k) (keyBytes e.1) = true
    · simp only [if_pos h1, List.mem_cons]
    · rw [if_neg h1, if_neg (by simpa using hfresh e (List.mem_cons_self e rest))]
      simp only [List.mem_cons, ih fun f hf => hfresh f (List.mem_cons_of_mem e hf)]
      tauto

theorem length_dbInsert {db : List (Key × String)} {k : Key} {v : String}
    (hfresh : ∀ e ∈ db, e.1 ≠ k) :
    (dbInsert db k v).length = db.length + 1 := by
  induction db with
  | nil => simp [dbInsert]
  | cons e rest ih =>
    rw [dbInsert]
    by_cases h1 : bytesLt (keyBytes k) (keyBytes e.1) = true
    · rw [if_pos h1]; rfl
    · rw [if_neg h1, if_neg (by simpa using hfresh e (List.mem_cons_self e rest))]
      simp [ih fun f hf => hfresh f (List.mem_cons_of_mem e hf)]

theorem foldl_dbInsert_mem {batch db : List (Key × String)}
    (hd : ∀ e ∈ batch, ∀ f ∈ db, f.1 ≠ e.1)
    (hp : batch.Pairwise (fun a b => a.1 ≠ b.1)) (x : Key × String) :
    x ∈ batch.foldl (fun d e => dbInsert d e.1 e.2) db ↔ x ∈ db ∨ x ∈ batch := by
  induction batch generalizing db with
  | nil => simp
  | cons e rest ih =>
    have hfresh : ∀ f ∈ db, f.1 ≠ e.1 := hd e (List.mem_cons_self e rest)
    have hd' : ∀ a ∈ rest, ∀ f ∈ dbInsert db e.1 e.2, f.1 ≠ a.1 := by
      intro a ha f hf
      rcases (mem_dbInsert_iff hfresh f).mp hf with rfl | hfdb
      · exact (List.pairwise_cons.mp hp).1 a ha
      · exact hd a (List.mem_cons_of_mem e ha) f hfdb
    rw [List.foldl_cons, ih hd' (List.pairwise_cons.mp hp).2,
      mem_dbInsert_iff hfresh x]
    simp only [List.mem_cons]
    tauto

theorem foldl_dbInsert_length {batch db : List (Key × String)}
    (hd : ∀ e ∈ batch, ∀ f ∈ db, f.1 ≠ e.1)
    (hp : batch.Pairwise (fun a b => a.1 ≠ b.1)) :
    (batch.foldl (fun d e => dbInsert d e.1 e.2) db).length = db.length + batch.length := by
  induction batch generalizing db with
  | nil => simp
  | cons e rest ih =>
    have hfresh : ∀ f ∈ db, f.1 ≠ e.1 := hd e (List.mem_cons_self e rest)
    have hd' : ∀ a ∈ rest, ∀ f ∈ dbInsert db e.1 e.2, f.1 ≠ a.1 := by
      intro a ha f hf
      rcases (mem_dbInsert_iff hfresh f).mp hf with rfl | hfdb
      · exact (List.pairwise_cons.mp hp).1 a ha
      · exact hd a (List.mem_cons_of_mem e ha) f hfdb
    rw [List.foldl_cons, ih hd' (List.pairwise_cons.mp hp).2, length_dbInsert hfresh]
    simp only [List.length_cons]
    omega

/-- Closed form of the upload loop: the accumulator after the whole field
loop is determined by the accepted filenames (`fieldOutcome` of each field),
because every acceptance check depends on the field alone. -/
theorem uploadStep_foldl (gf : List Nat → Option ImageFormat) (dg : List Nat → String)
    (wf : String → Bool) (cfg : String) (uid : Nat) (fields : List Field) :
    ∀ (st : Store) (batch : List (Key × String)) (imgs : List String),
      fields.foldl (uploadStep gf dg wf cfg uid) (st, batch, imgs) =
        ({ st with
            blobs := writeAll cfg st.blobs (fields.filterMap (fieldOutcome gf dg wf cfg)),
            imgs_count :=
              st.imgs_count + (fields.filterMap (fieldOutcome gf dg wf cfg)).length },
         batch ++ batchFor uid st.imgs_count (fields.filterMap (fieldOutcome gf dg wf cfg)),
         imgs ++ fields.filterMap (fieldOutcome gf dg wf cfg)) := by
  induction fields with
  | nil =>
    intro st batch imgs
    simp [writeAll, batchFor]
  | cons f rest ih =>
    intro st batch imgs
    rw [List.foldl_cons, List.filterMap_cons]
    cases hb : f.bytes with
    | none =>
      rw [show uploadStep gf dg wf cfg uid (st, batch, imgs) f = (st, batch, imgs) by
        simp [uploadStep, hb]]
      rw [show fieldOutcome gf dg wf cfg f = none by simp [fieldOutcome, hb]]
      exact ih st batch imgs
    | some data =>
      cases hgf : gf data with
      | none =>
        rw [show uploadStep gf dg wf cfg uid (st, batch, imgs) f = (st, batch, imgs) by
          simp [uploadStep, hb, hgf]]
        rw [show fieldOutcome gf dg wf cfg f = none by simp [fieldOutcome, hb, hgf]]
        exact ih st batch imgs
      | some format =>
        by_cases hsupp : format.supported = true
        · cases hext : extensionsStrFirst format with
          | none =>
            rw [show uploadStep gf dg wf cfg uid (st, batch, imgs) f = (st, batch, imgs) by
              simp [uploadStep, hb, hgf, hsupp, hext]]
            rw [show fieldOutcome gf dg wf cfg f = none by
              simp [fieldOutcome, hb, hgf, hsupp, hext]]
            exact ih st batch imgs
          | some extension =>
            by_cases hwf : wf (blobPath cfg (dg data ++ "." ++ extension)) = true
            · rw [show uploadStep gf dg wf cfg uid (st, batch, imgs) f = (st, batch, imgs) by
                simp [uploadStep, hb, hgf, hsupp, hext, hwf]]
              rw [show fieldOutcome gf dg wf cfg f = none by
                simp [fieldOutcome, hb, hgf, hsupp, hext, hwf]]
              exact ih st batch imgs
            · rw [show uploadStep gf dg wf cfg uid (st, batch, imgs) f =
                  ({ st with
                      blobs := fsWrite st.blobs (blobPath cfg (dg data ++ "." ++ extension)) data,
                      imgs_count := st.imgs_count + 1 },
                   batch ++ [((uid, st.imgs_count + 1), dg data ++ "." ++ extension)],
                   imgs ++ [dg data ++ "." ++ extension]) by
                simp [uploadStep, hb, hgf, hsupp, hext, hwf, incr_id]]
              rw [show fieldOutcome gf dg wf cfg f = some (dg data ++ "." ++ extension) by
                simp [fieldOutcome, hb, hgf, hsupp, hext, hwf]]
              rw [ih]
              simp only [Prod.mk.injEq, Store.mk.injEq, writeAll, batchFor, fsWrite,
                List.cons_append, List.nil_append, List.append_assoc, List.length_cons,
                true_and, and_true]
              omega
        · have hsupp' : format.supported = false := by
            revert hsupp; cases format.supported <;> simp
          rw [show uploadStep gf dg wf cfg uid (st, batch, imgs) f = (st, batch, imgs) by
            simp [uploadStep, hb, hgf, hsupp']]
          rw [show fieldOutcome gf dg wf cfg f = none by
            simp [fieldOutcome, hb, hgf, hsupp']]
          exact ih st batch imgs

/-- `upload_post` in closed form: the accepted names, the staged batch and
the committed index all derive from `fieldOutcome` of the fields. -/
theorem upload_post_eq (gf : List Nat → Option ImageFormat) (dg : List Nat → String)
    (wf : String → Bool) (cfg : String) (uid : Nat) (fields : List Field) (st : Store) :
    upload_post gf dg wf cfg uid fields st =
      ({ st with
          index := (batchFor uid st.imgs_count
              (fields.filterMap (fieldOutcome gf dg wf cfg))).foldl
            (fun db e => dbInsert db e.1 e.2) st.index,
          blobs := writeAll cfg st.blobs (fields.filterMap (fieldOutcome gf dg wf cfg)),
          imgs_count :=
            st.imgs_count + (fields.filterMap (fieldOutcome gf dg wf cfg)).length },
       fields.filterMap (fieldOutcome gf dg wf cfg)) := by
  unfold upload_post
  rw [uploadStep_foldl]
  simp

theorem batchFor_map_snd (uid : Nat) (names : List String) :
    ∀ c, (batchFor uid c names).map (fun e => e.2) = names := by
  induction names with
  | nil => intro c; rfl
  | cons nm rest ih => intro c; simp [batchFor, ih]

theorem batchFor_length (uid : Nat) (names : List String) :
    ∀ c, (batchFor uid c names).length = names.length := by
  induction names with
  | nil => intro c; rfl
  | cons nm rest ih => intro c; simp [batchFor, ih]

theorem batchFor_mem_key {uid : Nat} {names : List String} {e : Key × String} :
    ∀ {c}, e ∈ batchFor uid c names → e.1.1 = uid ∧ c < e.1.2 ∧ e.1.2 ≤ c + names.length := by
  induction names with
  | nil => intro c h; simp [batchFor] at h
  | cons nm rest ih =>
    intro c h
    rcases List.mem_cons.mp h with rfl | h
    · simp
    · have := ih h
      refine ⟨this.1, by omega, by simp only [List.length_cons]; omega⟩

theorem batchFor_pairwise_ne (uid : Nat) (names : List String) :
    ∀ c, (batchFor uid c names).Pairwise (fun a b => a.1 ≠ b.1) := by
  induction names with
  | nil => intro c; exact List.Pairwise.nil
  | cons nm rest ih =>
    intro c
    refine List.pairwise_cons.mpr ⟨?_, ih (c + 1)⟩
    intro b hb hkey
    have h1 := (batchFor_mem_key hb).2.1
    have h2 : c + 1 = b.1.2 := congrArg Prod.snd hkey
    omega

theorem mem_fsWrite_self (blobs : List String) (p : String) (d : List Nat) :
    p ∈ fsWrite blobs p d := by
  unfold fsWrite
  by_cases h : p ∈ blobs
  · rwa [if_pos h]
  · rw [if_neg h]
    simp

theorem fsWrite_of_mem {blobs : List String} {p : String} (d : List Nat) (h : p ∈ blobs) :
    fsWrite blobs p d = blobs := by
  unfold fsWrite
  rw [if_pos h]

theorem decodeEntry_fst {e : Key × String} (hs : e.1.2 < 2 ^ 32) :
    (decodeEntry e).1 = e.1.2 := by
  unfold decodeEntry
  simp [keyBytes_drop_four, u8_slice_to_u32_u32_to_ivec _ hs]

/-- Dropping then taking from a list sorted under `R` (compared through the
decoded sequence ids) yields a page sorted the same way. -/
theorem page_pairwise (R : Nat → Nat → Prop) {l : List (Key × String)} (a n : Nat)
    (hb2 : ∀ e ∈ l, e.1.2 < 2 ^ 32)
    (hpw : l.Pairwise (fun x y => R x.1.2 y.1.2)) :
    (((l.drop a).take n).map decodeEntry).Pairwise (fun x y => R x.1 y.1) := by
  have hsub : ((l.drop a).take n).Sublist l :=
    (List.take_sublist _ _).trans (List.drop_sublist _ _)
  refine List.pairwise_map.mpr ?_
  refine List.Pairwise.imp_of_mem ?_ (hpw.sublist hsub)
  intro x y hx hy h
  rw [decodeEntry_fst (hb2 x (hsub.subset hx)), decodeEntry_fst (hb2 y (hsub.subset hy))]
  exact h

/-! ## The claims -/

/-- C9: the sequence-id key encoding round-trips — the bytes after the
4-byte owner prefix of an encoded key decode, via `u8_slice_to_u32`, to
exactly the sequence id that upload encoded with `u32_to_ivec`, so the
gallery decode step returns each committed record under its own sequence
id. -/
theorem seq_key_roundtrip (uid seq : Nat) (v : String) (hs : seq < 2 ^ 32) :
    (keyBytes (uid, seq)).drop 4 = u32_to_ivec seq ∧
    u8_slice_to_u32 ((keyBytes (uid, seq)).drop 4) = seq ∧
    decodeEntry ((uid, seq), v) = (seq, v) := by
  refine ⟨keyBytes_drop_four _, ?_, decodeEntry_eq v hs⟩
  rw [keyBytes_drop_four]
  exact u8_slice_to_u32_u32_to_ivec _ hs

/-- Witness for C9 at `uid = 7`, `seq = 5`. -/
theorem seq_key_roundtrip_witness :
    (5 : Nat) < 2 ^ 32 ∧
    ((keyBytes (7, 5)).drop 4 = u32_to_ivec 5 ∧
     u8_slice_to_u32 ((keyBytes (7, 5)).drop 4) = 5 ∧
     decodeEntry ((7, 5), "a.png") = (5, "a.png")) :=
  ⟨by decide, seq_key_roundtrip 7 5 "a.png" (by decide)⟩

/-- C4: a gallery listing is the requested page of the owner's records —
descending in sequence id when `is_desc` (the default), ascending otherwise,
with the first `anchor` records of that direction skipped (default 0) and at
most 12 pairs returned; an anchor at or beyond the owner's record count
yields an empty page, not an error. -/
theorem gallery_pagination (claim_uid : Nat) (claim_role : Role) (uid : Nat)
    (anchor? : Option Nat) (is_desc? : Option Bool) (st : Store)
    (hauth : claim_uid = uid ∨ claim_role = Role.Admin)
    (hsorted : st.index.Pairwise (fun a b => bytesLt (keyBytes a.1) (keyBytes b.1) = true))
    (hu : uid < 2 ^ 32) (hb : ∀ e ∈ st.index, e.1.1 < 2 ^ 32 ∧ e.1.2 < 2 ^ 32) :
    ∃ page, gallery claim_uid claim_role uid anchor? is_desc? st = .ok page ∧
      page = (((if is_desc?.getD true then (prefixEntries st.index uid).reverse
                else prefixEntries st.index uid).drop (anchor?.getD 0)).take 12).map
          decodeEntry ∧
      page.length ≤ 12 ∧
      (if is_desc?.getD true then page.Pairwise (fun a b => b.1 < a.1)
       else page.Pairwise (fun a b => a.1 < b.1)) ∧
      ((prefixEntries st.index uid).length ≤ anchor?.getD 0 → page = []) := by
  have hpw : (prefixEntries st.index uid).Pairwise (fun a b => a.1.2 < b.1.2) :=
    prefixEntries_pairwise hu hb hsorted
  have hmem2 : ∀ e ∈ prefixEntries st.index uid, e.1.2 < 2 ^ 32 := fun e he =>
    (hb e (mem_prefixEntries hu (fun f hf => (hb f hf).1) he).1).2
  refine ⟨_, gallery_eq_page claim_uid claim_role uid anchor? is_desc? st hauth, rfl, ?_, ?_, ?_⟩
  · simp only [List.length_map, List.length_take]
    exact Nat.min_le_left _ _
  · cases hdesc : is_desc?.getD true with
    | true =>
      simp only [if_pos rfl]
      exact page_pairwise (fun s t => t < s) (anchor?.getD 0) 12
        (fun e he => hmem2 e (List.mem_reverse.mp he))
        (List.pairwise_reverse.mpr hpw)
    | false =>
      simp only [if_neg Bool.false_ne_true]
      exact page_pairwise (fun s t => s < t) (anchor?.getD 0) 12 hmem2 hpw
  · intro hle
    cases hdesc : is_desc?.getD true with
    | true =>
      simp only [if_pos rfl]
      rw [List.drop_eq_nil_of_le (by simpa using hle)]
      simp
    | false =>
      simp only [if_neg Bool.false_ne_true]
      rw [List.drop_eq_nil_of_le hle]
      simp

/-- Witness for C4 on a concrete store of three records for owner 1, default
parameters. -/
theorem gallery_pagination_witness :
    ((1 : Nat) = 1 ∨ Role.Standard = Role.Admin) ∧
    (∃ page, gallery 1 Role.Standard 1 none none stW = .ok page ∧
      page = (((if (none : Option Bool).getD true then (prefixEntries stW.index 1).reverse
                else prefixEntries stW.index 1).drop ((none : Option Nat).getD 0)).take 12).map
          decodeEntry ∧
      page.length ≤ 12 ∧
      (if (none : Option Bool).getD true then page.Pairwise (fun a b => b.1 < a.1)
       else page.Pairwise (fun a b => a.1 < b.1)) ∧
      ((prefixEntries stW.index 1).length ≤ (none : Option Nat).getD 0 → page = [])) :=
  ⟨Or.inl rfl,
   gallery_pagination 1 Role.Standard 1 none none stW (Or.inl rfl) (by decide) (by decide)
     (by decide)⟩

/-- C8: for one owner with at least 24 records, the reverse pages at
`anchor = 0` and `anchor = 12` are disjoint, both full (12 records), and
their concatenation is exactly the first 24 entries of the owner's
descending listing — strictly descending, no gaps, no duplicates. -/
theorem gallery_disjoint_pages (claim_uid : Nat) (claim_role : Role) (uid : Nat) (st : Store)
    (hauth : claim_uid = uid ∨ claim_role = Role.Admin)
    (hsorted : st.index.Pairwise (fun a b => bytesLt (keyBytes a.1) (keyBytes b.1) = true))
    (hu : uid < 2 ^ 32) (hb : ∀ e ∈ st.index, e.1.1 < 2 ^ 32 ∧ e.1.2 < 2 ^ 32)
    (h24 : 24 ≤ (prefixEntries st.index uid).length) :
    ∃ p0 p1,
      gallery claim_uid claim_role uid (some 0) (some true) st = .ok p0 ∧
      gallery claim_uid claim_role uid (some 12) (some true) st = .ok p1 ∧
      p0 ++ p1 = ((prefixEntries st.index uid).reverse.map decodeEntry).take 24 ∧
      (p0 ++ p1).Pairwise (fun a b => b.1 < a.1) ∧
      (∀ x ∈ p0, x ∉ p1) ∧
      p0.length = 12 ∧ p1.length = 12 := by
  have hpw : (prefixEntries st.index uid).Pairwise (fun a b => a.1.2 < b.1.2) :=
    prefixEntries_pairwise hu hb hsorted
  have hmem2 : ∀ e ∈ (prefixEntries st.index uid).reverse, e.1.2 < 2 ^ 32 := fun e he =>
    (hb e (mem_prefixEntries hu (fun f hf => (hb f hf).1) (List.mem_reverse.mp he)).1).2
  have hrevpw : (prefixEntries st.index uid).reverse.Pairwise (fun x y => y.1.2 < x.1.2) :=
    List.pairwise_reverse.mpr hpw
  have hlen : (prefixEntries st.index uid).reverse.length =
      (prefixEntries st.index uid).length := List.length_reverse _
  have hconcat :
      ((((prefixEntries st.index uid).reverse.drop 0).take 12).map decodeEntry ++
        (((prefixEntries st.index uid).reverse.drop 12).take 12).map decodeEntry) =
        ((prefixEntries st.index uid).reverse.map decodeEntry).take 24 := by
    rw [List.drop_zero, ← List.map_append, ← List.take_add, List.map_take]
  have hp24 : ((((prefixEntries st.index uid).reverse.drop 0).take 24).map
      decodeEntry).Pairwise (fun a b => b.1 < a.1) :=
    page_pairwise (fun s t => t < s) 0 24 hmem2 hrevpw
  rw [List.drop_zero] at hp24
  have hpair : ((((prefixEntries st.index uid).reverse.drop 0).take 12).map decodeEntry ++
      (((prefixEntries st.index uid).reverse.drop 12).take 12).map
        decodeEntry).Pairwise (fun a b => b.1 < a.1) := by
    rw [hconcat, ← List.map_take]
    exact hp24
  refine ⟨_, _,
    gallery_eq_page claim_uid claim_role uid (some 0) (some true) st hauth,
    gallery_eq_page claim_uid claim_role uid (some 12) (some true) st hauth,
    hconcat, hpair, ?_, ?_, ?_⟩
  · intro x hx hx1
    have h3 := (List.pairwise_append.mp hpair).2.2 x hx x hx1
    exact lt_irrefl _ h3
  · simp only [Option.getD_some, eq_self_iff_true, if_true, List.length_map, List.length_take,
      List.length_drop, hlen]
    omega
  · simp only [Option.getD_some, eq_self_iff_true, if_true, List.length_map, List.length_take,
      List.length_drop, hlen]
    omega

/-- Witness for C8 on a concrete store of 24 records for owner 7. -/
theorem gallery_disjoint_pages_witness :
    ((7 : Nat) = 7 ∨ Role.Standard = Role.Admin) ∧
    24 ≤ (prefixEntries st24.index 7).length ∧
    (∃ p0 p1,
      gallery 7 Role.Standard 7 (some 0) (some true) st24 = .ok p0 ∧
      gallery 7 Role.Standard 7 (some 12) (some true) st24 = .ok p1 ∧
      p0 ++ p1 = ((prefixEntries st24.index 7).reverse.map decodeEntry).take 24 ∧
      (p0 ++ p1).Pairwise (fun a b => b.1 < a.1) ∧
      (∀ x ∈ p0, x ∉ p1) ∧
      p0.length = 12 ∧ p1.length = 12) :=
  ⟨Or.inl rfl, by decide,
   gallery_disjoint_pages 7 Role.Standard 7 st24 (Or.inl rfl) (by decide) (by decide)
     (by decide) (by decide)⟩


/-- C1: when an authorized deletion removes an existing index record, the
physical blob is deleted precisely when no remaining index record (of any
owner) still carries the removed record's blob identifier; with a remaining
reference the blob store is left untouched. -/
theorem image_delete_refcount (rmFail : String → Bool) (cfg : String)
    (claim_uid : Nat) (claim_role : Role) (uid img_id : Nat) (st : Store)
    (v1 : String) (index' : List (Key × String))
    (hauth : claim_uid = uid ∨ claim_role = Role.Admin)
    (htake : dbTake st.index (uid, img_id) = (some v1, index'))
    (hblob : blobPath cfg v1 ∈ st.blobs)
    (hrm : rmFail (blobPath cfg v1) = false) :
    (image_delete rmFail cfg claim_uid claim_role uid img_id st).result = .ok () ∧
    (image_delete rmFail cfg claim_uid claim_role uid img_id st).store.index = index' ∧
    ((∃ e ∈ index', e.2 = v1) →
      (image_delete rmFail cfg claim_uid claim_role uid img_id st).store.blobs = st.blobs) ∧
    (blobPath cfg v1 ∉ (image_delete rmFail cfg claim_uid claim_role uid img_id st).store.blobs
      ↔ ¬ ∃ e ∈ index', e.2 = v1) := by
  have hany : (index'.any (fun e => e.2 == v1) = true) ↔ ∃ e ∈ index', e.2 = v1 := by
    rw [List.any_eq_true]
    simp only [beq_iff_eq]
  by_cases hb : (index'.any (fun x => x.2 == v1)) = true
  · have hexx : ∃ e ∈ index', e.2 = v1 := hany.mp hb
    by_cases huid : uid ≠ claim_uid <;>
      simp [image_delete, (show ¬(claim_uid ≠ uid ∧ claim_role ≠ Role.Admin) by tauto),
        htake, hb, hblob, hexx, huid]
  · have hb' : (index'.any (fun x => x.2 == v1)) = false := by
      revert hb
      cases index'.any (fun x => x.2 == v1) <;> simp
    have hnoex : ¬ ∃ e ∈ index', e.2 = v1 := by
      rw [← hany, hb']
      exact Bool.false_ne_true
    by_cases huid : uid ≠ claim_uid <;>
      simp [image_delete, (show ¬(claim_uid ≠ uid ∧ claim_role ≠ Role.Admin) by tauto),
        htake, hb', removeFile, hblob, hrm, hnoex, huid]

/-- Witness for C1: deleting record `(1, 1)` of `stW`, whose blob is still
referenced by record `(1, 2)`. -/
theorem image_delete_refcount_witness :
    dbTake stW.index (1, 1) = (some "a.png", [((1, 2), "a.png"), ((1, 3), "b.png")]) ∧
    blobPath "img" "a.png" ∈ stW.blobs ∧
    ((image_delete rmW "img" 1 Role.Standard 1 1 stW).result = .ok () ∧
     (image_delete rmW "img" 1 Role.Standard 1 1 stW).store.index =
       [((1, 2), "a.png"), ((1, 3), "b.png")] ∧
     ((∃ e ∈ [((1, 2), "a.png"), ((1, 3), "b.png")], e.2 = "a.png") →
       (image_delete rmW "img" 1 Role.Standard 1 1 stW).store.blobs = stW.blobs) ∧
     (blobPath "img" "a.png" ∉ (image_delete rmW "img" 1 Role.Standard 1 1 stW).store.blobs
       ↔ ¬ ∃ e ∈ [((1, 2), "a.png"), ((1, 3), "b.png")], e.2 = "a.png")) :=
  ⟨by decide, by decide,
   image_delete_refcount rmW "img" 1 Role.Standard 1 1 stW "a.png"
     [((1, 2), "a.png"), ((1, 3), "b.png")] (Or.inl rfl) (by decide) (by decide) rfl⟩

/-- C2 counterexample: deleting the sole reference `(1, 2)` when the blob
file is already absent does NOT succeed — the physical delete's "not found"
is propagated as an error, contradicting the claim that it is tolerated. -/
theorem image_delete_notfound_cex :
    (image_delete rmW "img" 1 Role.Standard 1 2
        ⟨[((1, 2), "a.png")], [], 0, []⟩).result = .error (.Io .notFound) ∧
    (image_delete rmW "img" 1 Role.Standard 1 2
        ⟨[((1, 2), "a.png")], [], 0, []⟩).result ≠ .ok () := by
  decide

/-- C2 amended: when deletion removes the last reference and the physical
delete reports "not found", the error IS surfaced to the caller (the call
fails with the I/O error); the index record stays removed and the blob store
and notification log are untouched. -/
theorem image_delete_notfound_error (rmFail : String → Bool) (cfg : String)
    (claim_uid : Nat) (claim_role : Role) (uid img_id : Nat) (st : Store)
    (v1 : String) (index' : List (Key × String))
    (hauth : claim_uid = uid ∨ claim_role = Role.Admin)
    (htake : dbTake st.index (uid, img_id) = (some v1, index'))
    (hnoref : index'.any (fun e => e.2 == v1) = false)
    (habsent : blobPath cfg v1 ∉ st.blobs) :
    (image_delete rmFail cfg claim_uid claim_role uid img_id st).result =
      .error (.Io .notFound) ∧
    (image_delete rmFail cfg claim_uid claim_role uid img_id st).store.index = index' ∧
    (image_delete rmFail cfg claim_uid claim_role uid img_id st).store.blobs = st.blobs ∧
    (image_delete rmFail cfg claim_uid claim_role uid img_id st).store.nts = st.nts := by
  simp [image_delete, (show ¬(claim_uid ≠ uid ∧ claim_role ≠ Role.Admin) by tauto),
    htake, hnoref, removeFile, habsent]

/-- Witness for the amended C2: a store holding only record `(1, 2)` with no
physical file behind it. -/
theorem image_delete_notfound_error_witness :
    dbTake (⟨[((1, 2), "a.png")], [], 0, []⟩ : Store).index (1, 2) = (some "a.png", []) ∧
    ((image_delete rmW "img" 1 Role.Standard 1 2
        ⟨[((1, 2), "a.png")], [], 0, []⟩).result = .error (.Io .notFound) ∧
     (image_delete rmW "img" 1 Role.Standard 1 2
        ⟨[((1, 2), "a.png")], [], 0, []⟩).store.index = [] ∧
     (image_delete rmW "img" 1 Role.Standard 1 2
        ⟨[((1, 2), "a.png")], [], 0, []⟩).store.blobs = [] ∧
     (image_delete rmW "img" 1 Role.Standard 1 2
        ⟨[((1, 2), "a.png")], [], 0, []⟩).store.nts = []) :=
  ⟨by decide,
   image_delete_notfound_error rmW "img" 1 Role.Standard 1 2 _ "a.png" []
     (Or.inl rfl) (by decide) (by decide) (by decide)⟩

/-- C6: an unauthorized deletion fails with `Unauthorized` and a deletion of
a nonexistent record fails with `NotFound`; in both cases the whole state —
index, blob store and notification log — is returned unchanged. -/
theorem image_delete_unauth_notfound (rmFail : String → Bool) (cfg : String)
    (claim_uid : Nat) (claim_role : Role) (uid img_id : Nat) (st : Store) :
    (claim_uid ≠ uid → claim_role ≠ Role.Admin →
      image_delete rmFail cfg claim_uid claim_role uid img_id st =
        ⟨.error .Unauthorized, st⟩) ∧
    ((claim_uid = uid ∨ claim_role = Role.Admin) →
      st.index.find? (fun e => e.1 == (uid, img_id)) = none →
      image_delete rmFail cfg claim_uid claim_role uid img_id st =
        ⟨.error .NotFound, st⟩) := by
  constructor
  · intro h1 h2
    unfold image_delete
    rw [if_pos ⟨h1, h2⟩]
  · intro hauth hfind
    have htake : dbTake st.index (uid, img_id) = (none, st.index) := by
      unfold dbTake
      rw [hfind]
    unfold image_delete
    rw [if_neg (by tauto), htake]

/-- Witness for C6: a stranger's attempt on `(1, 1)` and the owner's attempt
on the nonexistent `(1, 9)`, both against `stW`. -/
theorem image_delete_unauth_notfound_witness :
    image_delete rmW "img" 2 Role.Standard 1 1 stW = ⟨.error .Unauthorized, stW⟩ ∧
    image_delete rmW "img" 1 Role.Standard 1 9 stW = ⟨.error .NotFound, stW⟩ :=
  ⟨(image_delete_unauth_notfound rmW "img" 2 Role.Standard 1 1 stW).1 (by decide) (by decide),
   (image_delete_unauth_notfound rmW "img" 1 Role.Standard 1 9 stW).2 (Or.inl rfl) (by decide)⟩

/-- C7: when the physical delete step fails after the index record was
removed, the error is surfaced while the index record stays removed (no
rollback) and the blob store is untouched — so the blob may still be
present. -/
theorem image_delete_no_rollback (rmFail : String → Bool) (cfg : String)
    (claim_uid : Nat) (claim_role : Role) (uid img_id : Nat) (st : Store)
    (v1 : String) (index' : List (Key × String))
    (hauth : claim_uid = uid ∨ claim_role = Role.Admin)
    (htake : dbTake st.index (uid, img_id) = (some v1, index'))
    (hnoref : index'.any (fun e => e.2 == v1) = false)
    (hfail : blobPath cfg v1 ∉ st.blobs ∨ rmFail (blobPath cfg v1) = true) :
    (∃ e, (image_delete rmFail cfg claim_uid claim_role uid img_id st).result =
      .error (.Io e)) ∧
    (image_delete rmFail cfg claim_uid claim_role uid img_id st).store.index = index' ∧
    (∀ e ∈ (image_delete rmFail cfg claim_uid claim_role uid img_id st).store.index,
      e.1 ≠ (uid, img_id)) ∧
    (image_delete rmFail cfg claim_uid claim_role uid img_id st).store.blobs = st.blobs := by
  have hsnd : index' = st.index.filter (fun x => !(x.1 == (uid, img_id))) := by
    unfold dbTake at htake
    cases hf : st.index.find? (fun x => x.1 == (uid, img_id)) with
    | none => rw [hf] at htake; exact absurd htake (by simp)
    | some x => rw [hf] at htake; cases htake; rfl
  have hkeys : ∀ e ∈ index', e.1 ≠ (uid, img_id) := by
    intro e he
    rw [hsnd] at he
    simpa using (List.mem_filter.mp he).2
  have houtcome : image_delete rmFail cfg claim_uid claim_role uid img_id st =
      ⟨.error (.Io (if blobPath cfg v1 ∈ st.blobs then .other else .notFound)),
       { st with index := index' }⟩ := by
    by_cases hp : blobPath cfg v1 ∈ st.blobs
    · have hrmf : rmFail (blobPath cfg v1) = true := by tauto
      simp [image_delete, (show ¬(claim_uid ≠ uid ∧ claim_role ≠ Role.Admin) by tauto),
        htake, hnoref, removeFile, hp, hrmf]
    · simp [image_delete, (show ¬(claim_uid ≠ uid ∧ claim_role ≠ Role.Admin) by tauto),
        htake, hnoref, removeFile, hp]
  rw [houtcome]
  exact ⟨⟨_, rfl⟩, rfl, hkeys, rfl⟩

/-- Witness for C7: the last reference to a blob whose physical delete fails
(file present, filesystem error). -/
theorem image_delete_no_rollback_witness :
    dbTake (⟨[((1, 3), "b.png")], ["img/b.png"], 3, []⟩ : Store).index (1, 3) =
      (some "b.png", []) ∧
    ((∃ e, (image_delete (fun _ => true) "img" 1 Role.Standard 1 3
        ⟨[((1, 3), "b.png")], ["img/b.png"], 3, []⟩).result = .error (.Io e)) ∧
     (image_delete (fun _ => true) "img" 1 Role.Standard 1 3
        ⟨[((1, 3), "b.png")], ["img/b.png"], 3, []⟩).store.index = [] ∧
     (∀ e ∈ (image_delete (fun _ => true) "img" 1 Role.Standard 1 3
        ⟨[((1, 3), "b.png")], ["img/b.png"], 3, []⟩).store.index, e.1 ≠ (1, 3)) ∧
     (image_delete (fun _ => true) "img" 1 Role.Standard 1 3
        ⟨[((1, 3), "b.png")], ["img/b.png"], 3, []⟩).store.blobs = ["img/b.png"]) :=
  ⟨by decide,
   image_delete_no_rollback (fun _ => true) "img" 1 Role.Standard 1 3 _ "b.png" []
     (Or.inl rfl) (by decide) (by decide) (Or.inr rfl)⟩


/-- C3: batch upload skips undetectable/unsupported/failed items without
aborting; the accepted list is exactly the per-item outcomes in input order,
the staged batch carries exactly those identifiers in the same order, and
the committed index is the old index plus exactly the staged records. -/
theorem upload_skip_and_exact_commit (gf : List Nat → Option ImageFormat)
    (dg : List Nat → String) (wf : String → Bool) (cfg : String) (uid : Nat)
    (fields : List Field) (st : Store)
    (hctr : ∀ e ∈ st.index, e.1.2 ≤ st.imgs_count) :
    (upload_post gf dg wf cfg uid fields st).2 =
        fields.filterMap (fieldOutcome gf dg wf cfg) ∧
    (batchFor uid st.imgs_count (fields.filterMap (fieldOutcome gf dg wf cfg))).map
        (fun e => e.2) = (upload_post gf dg wf cfg uid fields st).2 ∧
    (∀ x, x ∈ (upload_post gf dg wf cfg uid fields st).1.index ↔
        x ∈ st.index ∨ x ∈ batchFor uid st.imgs_count
          (fields.filterMap (fieldOutcome gf dg wf cfg))) ∧
    (upload_post gf dg wf cfg uid fields st).1.index.length =
        st.index.length + (fields.filterMap (fieldOutcome gf dg wf cfg)).length := by
  have hd : ∀ e ∈ batchFor uid st.imgs_count (fields.filterMap (fieldOutcome gf dg wf cfg)),
      ∀ f ∈ st.index, f.1 ≠ e.1 := by
    intro e he f hf hkey
    have h1 := (batchFor_mem_key he).2.1
    have h2 := hctr f hf
    rw [hkey] at h2
    omega
  have hp := batchFor_pairwise_ne uid (fields.filterMap (fieldOutcome gf dg wf cfg))
    st.imgs_count
  rw [upload_post_eq]
  refine ⟨rfl, ?_, ?_, ?_⟩
  · exact batchFor_map_snd uid _ st.imgs_count
  · intro x
    exact foldl_dbInsert_mem hd hp x
  · rw [foldl_dbInsert_length hd hp, batchFor_length]

/-- Witness for C3: the five-item example — item 3 is unsupported, the other
four are accepted in order. -/
theorem upload_skip_and_exact_commit_witness :
    (∀ e ∈ stEmpty.index, e.1.2 ≤ stEmpty.imgs_count) ∧
    fieldsW.filterMap (fieldOutcome gfW dgW wfW "img") =
      ["h1.png", "h2.png", "h3.png", "h4.png"] ∧
    ((upload_post gfW dgW wfW "img" 7 fieldsW stEmpty).2 =
        fieldsW.filterMap (fieldOutcome gfW dgW wfW "img") ∧
     (batchFor 7 stEmpty.imgs_count (fieldsW.filterMap (fieldOutcome gfW dgW wfW "img"))).map
        (fun e => e.2) = (upload_post gfW dgW wfW "img" 7 fieldsW stEmpty).2 ∧
     (∀ x, x ∈ (upload_post gfW dgW wfW "img" 7 fieldsW stEmpty).1.index ↔
        x ∈ stEmpty.index ∨ x ∈ batchFor 7 stEmpty.imgs_count
          (fieldsW.filterMap (fieldOutcome gfW dgW wfW "img"))) ∧
     (upload_post gfW dgW wfW "img" 7 fieldsW stEmpty).1.index.length =
        stEmpty.index.length +
          (fieldsW.filterMap (fieldOutcome gfW dgW wfW "img")).length) :=
  ⟨by decide, by decide,
   upload_skip_and_exact_commit gfW dgW wfW "img" 7 fieldsW stEmpty (by decide)⟩


theorem fsWrite_fsWrite (blobs : List String) (p : String) (d d' : List Nat) :
    fsWrite (fsWrite blobs p d) p d' = fsWrite blobs p d := by
  by_cases h : p ∈ blobs <;> simp [fsWrite, h]

/-- `upload_post` on a single accepted field, in closed form. -/
theorem upload_post_single (gf : List Nat → Option ImageFormat) (dg : List Nat → String)
    (wf : String → Bool) (cfg : String) (uid : Nat) (data : List Nat)
    (format : ImageFormat) (ext : String) (st : Store)
    (hgf : gf data = some format) (hsupp : format.supported = true)
    (hext : extensionsStrFirst format = some ext)
    (hwf : wf (blobPath cfg (dg data ++ "." ++ ext)) = false) :
    upload_post gf dg wf cfg uid [⟨some data⟩] st =
      ({ st with
          index := dbInsert st.index (uid, st.imgs_count + 1) (dg data ++ "." ++ ext),
          blobs := fsWrite st.blobs (blobPath cfg (dg data ++ "." ++ ext)) [],
          imgs_count := st.imgs_count + 1 },
       [dg data ++ "." ++ ext]) := by
  have hnames : [(⟨some data⟩ : Field)].filterMap (fieldOutcome gf dg wf cfg) =
      [dg data ++ "." ++ ext] := by
    simp [fieldOutcome, hgf, hsupp, hext, hwf]
  rw [upload_post_eq, hnames]
  simp [batchFor, writeAll]

/-- `upload_post` on the same accepted payload twice in one request, in
closed form: two staged records, one written path. -/
theorem upload_post_double (gf : List Nat → Option ImageFormat) (dg : List Nat → String)
    (wf : String → Bool) (cfg : String) (uid : Nat) (data : List Nat)
    (format : ImageFormat) (ext : String) (st : Store)
    (hgf : gf data = some format) (hsupp : format.supported = true)
    (hext : extensionsStrFirst format = some ext)
    (hwf : wf (blobPath cfg (dg data ++ "." ++ ext)) = false) :
    upload_post gf dg wf cfg uid [⟨some data⟩, ⟨some data⟩] st =
      ({ st with
          index := dbInsert
            (dbInsert st.index (uid, st.imgs_count + 1) (dg data ++ "." ++ ext))
            (uid, st.imgs_count + 2) (dg data ++ "." ++ ext),
          blobs := fsWrite st.blobs (blobPath cfg (dg data ++ "." ++ ext)) [],
          imgs_count := st.imgs_count + 2 },
       [dg data ++ "." ++ ext, dg data ++ "." ++ ext]) := by
  have hnames : [(⟨some data⟩ : Field), ⟨some data⟩].filterMap (fieldOutcome gf dg wf cfg) =
      [dg data ++ "." ++ ext, dg data ++ "." ++ ext] := by
    simp [fieldOutcome, hgf, hsupp, hext, hwf]
  rw [upload_post_eq, hnames]
  simp [batchFor, writeAll, fsWrite_fsWrite]

/-- C5: byte-identical content uploaded by two (possibly different) owners
in successive requests yields the same identifier both times (a
deterministic digest-dot-extension name), one physical blob path, and two
distinct index records referencing that identifier. -/
theorem upload_dedup_identifier (gf : List Nat → Option ImageFormat)
    (dg : List Nat → String) (wf : String → Bool) (cfg : String) (uidA uidB : Nat)
    (data : List Nat) (format : ImageFormat) (ext : String) (st : Store)
    (hgf : gf data = some format) (hsupp : format.supported = true)
    (hext : extensionsStrFirst format = some ext)
    (hwf : wf (blobPath cfg (dg data ++ "." ++ ext)) = false)
    (hctr : ∀ e ∈ st.index, e.1.2 ≤ st.imgs_count) :
    (upload_post gf dg wf cfg uidA [⟨some data⟩] st).2 = [dg data ++ "." ++ ext] ∧
    (upload_post gf dg wf cfg uidB [⟨some data⟩]
        (upload_post gf dg wf cfg uidA [⟨some data⟩] st).1).2 =
      [dg data ++ "." ++ ext] ∧
    blobPath cfg (dg data ++ "." ++ ext) ∈
      (upload_post gf dg wf cfg uidA [⟨some data⟩] st).1.blobs ∧
    (upload_post gf dg wf cfg uidB [⟨some data⟩]
        (upload_post gf dg wf cfg uidA [⟨some data⟩] st).1).1.blobs =
      (upload_post gf dg wf cfg uidA [⟨some data⟩] st).1.blobs ∧
    ((uidA, st.imgs_count + 1), dg data ++ "." ++ ext) ∈
      (upload_post gf dg wf cfg uidB [⟨some data⟩]
        (upload_post gf dg wf cfg uidA [⟨some data⟩] st).1).1.index ∧
    ((uidB, st.imgs_count + 2), dg data ++ "." ++ ext) ∈
      (upload_post gf dg wf cfg uidB [⟨some data⟩]
        (upload_post gf dg wf cfg uidA [⟨some data⟩] st).1).1.index ∧
    ((uidA, st.imgs_count + 1) : Key) ≠ (uidB, st.imgs_count + 2) := by
  have h1 := upload_post_single gf dg wf cfg uidA data format ext st hgf hsupp hext hwf
  have hfreshA : ∀ e ∈ st.index, e.1 ≠ (uidA, st.imgs_count + 1) := by
    intro e he hk
    have h4 := hctr e he
    have h5 : e.1.2 = st.imgs_count + 1 := congrArg Prod.snd hk
    omega
  have h2 := upload_post_single gf dg wf cfg uidB data format ext
    (upload_post gf dg wf cfg uidA [⟨some data⟩] st).1 hgf hsupp hext hwf
  rw [h1] at h2
  have hfreshB : ∀ e ∈ dbInsert st.index (uidA, st.imgs_count + 1) (dg data ++ "." ++ ext),
      e.1 ≠ (uidB, st.imgs_count + 1 + 1) := by
    intro e he hk
    rcases (mem_dbInsert_iff hfreshA e).mp he with rfl | hin
    · have h3 : st.imgs_count + 1 = st.imgs_count + 1 + 1 := congrArg Prod.snd hk
      omega
    · have h4 := hctr e hin
      have h5 : e.1.2 = st.imgs_count + 1 + 1 := congrArg Prod.snd hk
      omega
  rw [h1, h2]
  dsimp only
  refine ⟨rfl, rfl, mem_fsWrite_self _ _ _, fsWrite_fsWrite _ _ _ _, ?_, ?_, ?_⟩
  · exact (mem_dbInsert_iff hfreshB _).mpr
      (Or.inr ((mem_dbInsert_iff hfreshA _).mpr (Or.inl rfl)))
  · exact (mem_dbInsert_iff hfreshB _).mpr (Or.inl rfl)
  · intro hk
    have h3 : st.imgs_count + 1 = st.imgs_count + 2 := congrArg Prod.snd hk
    omega

/-- Witness for C5: the same payload `[1]` uploaded by owners 1 and 2. -/
theorem upload_dedup_identifier_witness :
    gfW [1] = some ImageFormat.Png ∧
    ((upload_post gfW dgW wfW "img" 1 [⟨some [1]⟩] stEmpty).2 = ["h1.png"] ∧
     (upload_post gfW dgW wfW "img" 2 [⟨some [1]⟩]
        (upload_post gfW dgW wfW "img" 1 [⟨some [1]⟩] stEmpty).1).2 = ["h1.png"] ∧
     blobPath "img" "h1.png" ∈
       (upload_post gfW dgW wfW "img" 1 [⟨some [1]⟩] stEmpty).1.blobs ∧
     (upload_post gfW dgW wfW "img" 2 [⟨some [1]⟩]
        (upload_post gfW dgW wfW "img" 1 [⟨some [1]⟩] stEmpty).1).1.blobs =
       (upload_post gfW dgW wfW "img" 1 [⟨some [1]⟩] stEmpty).1.blobs ∧
     ((1, stEmpty.imgs_count + 1), "h1.png") ∈
       (upload_post gfW dgW wfW "img" 2 [⟨some [1]⟩]
         (upload_post gfW dgW wfW "img" 1 [⟨some [1]⟩] stEmpty).1).1.index ∧
     ((2, stEmpty.imgs_count + 2), "h1.png") ∈
       (upload_post gfW dgW wfW "img" 2 [⟨some [1]⟩]
         (upload_post gfW dgW wfW "img" 1 [⟨some [1]⟩] stEmpty).1).1.index ∧
     ((1, stEmpty.imgs_count + 1) : Key) ≠ (2, stEmpty.imgs_count + 2)) :=
  ⟨by decide,
   upload_dedup_identifier gfW dgW wfW "img" 1 2 [1] ImageFormat.Png "png" stEmpty
     (by decide) (by decide) (by decide) (by decide) (by decide)⟩

/-- C10: the same supported payload twice within a single request: both
occurrences are accepted, two records with distinct sequence ids but equal
identifiers are committed, the accepted list names the identifier twice, and
only one physical blob path is written. -/
theorem upload_same_payload_twice (gf : List Nat → Option ImageFormat)
    (dg : List Nat → String) (wf : String → Bool) (cfg : String) (uid : Nat)
    (data : List Nat) (format : ImageFormat) (ext : String) (st : Store)
    (hgf : gf data = some format) (hsupp : format.supported = true)
    (hext : extensionsStrFirst format = some ext)
    (hwf : wf (blobPath cfg (dg data ++ "." ++ ext)) = false)
    (hctr : ∀ e ∈ st.index, e.1.2 ≤ st.imgs_count) :
    (upload_post gf dg wf cfg uid [⟨some data⟩, ⟨some data⟩] st).2 =
      [dg data ++ "." ++ ext, dg data ++ "." ++ ext] ∧
    ((uid, st.imgs_count + 1), dg data ++ "." ++ ext) ∈
      (upload_post gf dg wf cfg uid [⟨some data⟩, ⟨some data⟩] st).1.index ∧
    ((uid, st.imgs_count + 2), dg data ++ "." ++ ext) ∈
      (upload_post gf dg wf cfg uid [⟨some data⟩, ⟨some data⟩] st).1.index ∧
    ((uid, st.imgs_count + 1) : Key) ≠ (uid, st.imgs_count + 2) ∧
    (upload_post gf dg wf cfg uid [⟨some data⟩, ⟨some data⟩] st).1.blobs =
      fsWrite st.blobs (blobPath cfg (dg data ++ "." ++ ext)) data := by
  have hfreshA : ∀ e ∈ st.index, e.1 ≠ (uid, st.imgs_count + 1) := by
    intro e he hk
    have h4 := hctr e he
    have h5 : e.1.2 = st.imgs_count + 1 := congrArg Prod.snd hk
    omega
  have hfreshB : ∀ e ∈ dbInsert st.index (uid, st.imgs_count + 1) (dg data ++ "." ++ ext),
      e.1 ≠ (uid, st.imgs_count + 2) := by
    intro e he hk
    rcases (mem_dbInsert_iff hfreshA e).mp he with rfl | hin
    · have h3 : st.imgs_count + 1 = st.imgs_count + 2 := congrArg Prod.snd hk
      omega
    · have h4 := hctr e hin
      have h5 : e.1.2 = st.imgs_count + 2 := congrArg Prod.snd hk
      omega
  rw [upload_post_double gf dg wf cfg uid data format ext st hgf hsupp hext hwf]
  dsimp only
  refine ⟨rfl, ?_, ?_, ?_, rfl⟩
  · exact (mem_dbInsert_iff hfreshB _).mpr
      (Or.inr ((mem_dbInsert_iff hfreshA _).mpr (Or.inl rfl)))
  · exact (mem_dbInsert_iff hfreshB _).mpr (Or.inl rfl)
  · intro hk
    have h3 : st.imgs_count + 1 = st.imgs_count + 2 := congrArg Prod.snd hk
    omega

/-- Witness for C10: payload `[2]` twice in one request by owner 5. -/
theorem upload_same_payload_twice_witness :
    gfW [2] = some ImageFormat.Png ∧
    ((upload_post gfW dgW wfW "img" 5 [⟨some [2]⟩, ⟨some [2]⟩] stEmpty).2 =
        ["h2.png", "h2.png"] ∧
     ((5, stEmpty.imgs_count + 1), "h2.png") ∈
       (upload_post gfW dgW wfW "img" 5 [⟨some [2]⟩, ⟨some [2]⟩] stEmpty).1.index ∧
     ((5, stEmpty.imgs_count + 2), "h2.png") ∈
       (upload_post gfW dgW wfW "img" 5 [⟨some [2]⟩, ⟨some [2]⟩] stEmpty).1.index ∧
     ((5, stEmpty.imgs_count + 1) : Key) ≠ (5, stEmpty.imgs_count + 2) ∧
     (upload_post gfW dgW wfW "img" 5 [⟨some [2]⟩, ⟨some [2]⟩] stEmpty).1.blobs =
       fsWrite stEmpty.blobs (blobPath "img" "h2.png") [2]) :=
  ⟨by decide,
   upload_same_payload_twice gfW dgW wfW "img" 5 [2] ImageFormat.Png "png" stEmpty
     (by decide) (by decide) (by decide) (by decide) (by decide)⟩

end Freedit
